import Mathlib

/-!
# Verification of the stremio-ncore-addon acquisition-and-streaming core

Shallow embedding of the repository's range negotiator
(`src/server/src/utils/parse-range-header.ts`), the play handler's range
response stage (`src/server/src/controllers/stream.controller.ts`), the
torrent store (`src/server/src/services/torrent-store/torrent-store.service.ts`)
and the ncore source service
(`src/server/src/services/torrent-source/ncore/ncore.service.ts`).

JavaScript numbers are modelled as `Int` (all values involved are integers:
regex groups contain only digits, file sizes are byte counts).  JS `null` /
`undefined` results are modelled with `Option`; JS string falsiness (the empty
string is falsy) is modelled explicitly where the source relies on it.
-/

/-- Embeds `clamp` from `parse-range-header.ts`:
`value < min ? min : value > max ? max : value`. -/
def clamp (value min max : Int) : Int :=
  if value < min then min else if value > max then max else value

/-- The value of a regex group of digits, as `parseInt(str, 10)` computes it
on an all-digit string: fold the digits most-significant first. -/
def digitsToNat (l : List Char) : Nat :=
  l.foldl (fun acc c => acc * 10 + (c.toNat - 48)) 0

/-- One attempt of the regex `/bytes=(?<start>\d+)?-(?<end>\d+)?/` at the head
of `l`.  The literal `bytes=` must be present; then a greedy (maximal) digit
run forms the optional `start` group, a literal `-` must follow (greedy
backtracking inside a maximal digit run can never expose a `-`, so requiring
the dash right after the maximal run is exactly the regex behaviour), and a
second maximal digit run forms the optional `end` group.  An empty group is
an absent (`undefined`) group because `\d+` needs at least one digit. -/
def matchBytesRangeAt (l : List Char) :
    Option (Option (List Char) × Option (List Char)) :=
  if l.take 6 = "bytes=".data then
    let afterEq := l.drop 6
    let d1 := afterEq.takeWhile Char.isDigit
    match afterEq.dropWhile Char.isDigit with
    | '-' :: afterDash =>
      let d2 := afterDash.takeWhile Char.isDigit
      some (if d1 = [] then none else some d1, if d2 = [] then none else some d2)
    | _ => none
  else none

/-- `rangeHeader.match(BYTES_RANGE_REGEX)`: the regex engine tries the pattern
at every position from the left and returns the first match's groups. -/
def searchBytesRange : List Char → Option (Option (List Char) × Option (List Char))
  | [] => none
  | c :: rest =>
    match matchBytesRangeAt (c :: rest) with
    | some r => some r
    | none => searchBytesRange rest

/-- The `{ start, end }` object returned by `parseRangeHeader`. -/
structure ByteRange where
  start : Int
  «end» : Int
deriving DecidableEq

/-- The arithmetic part of `parseRangeHeader` (lines 16-49 of
`parse-range-header.ts`), applied to the two regex groups.  Notes:
* `const start = startStr ? parseInt(startStr, 10) : NaN` - a present group is
  a non-empty digit string, so `parseInt` never yields `NaN` and the guard on
  line 19 never fires; the `NaN` placeholder of an absent group is never read
  (every branch that reads a value first establishes its group is present), so
  it is modelled by the irrelevant value `0`.
* `maxSize` models the local `max`; `maxChunkSize ? ... : fileSize` is JS
  number truthiness, so `0` falls back to `fileSize`. -/
def rangeFromGroups (startStr endStr : Option (List Char)) (fileSize : Int)
    (maxChunkSize : Option Int) : Option ByteRange :=
  let start : Int := match startStr with | some d => (digitsToNat d : Int) | none => 0
  let «end» : Int := match endStr with | some d => (digitsToNat d : Int) | none => 0
  let maxSize : Int := match maxChunkSize with
    | some m => if m = 0 then fileSize else min m fileSize
    | none => fileSize
  if startStr = none ∧ endStr = none then none
  else if ¬ startStr = none ∧ start ≥ fileSize then none
  else if ¬ endStr = none ∧ «end» ≥ fileSize then none
  else if startStr = none then
    -- Suffix byte format: "bytes=-500"
    let length := clamp «end» 0 maxSize
    if length > 0 then some ⟨fileSize - length, fileSize - 1⟩ else none
  else if endStr = none then
    -- Prefix byte format: "bytes=1000-"
    some ⟨clamp start 0 (fileSize - 1), clamp (start + maxSize - 1) 0 (fileSize - 1)⟩
  else
    -- Fully specified format: "bytes=1000-2000"
    if «end» < start then none
    else
      let clampedStart := clamp start 0 (fileSize - 1)
      let clampedEnd := clamp «end» clampedStart (fileSize - 1)
      if clampedEnd - clampedStart + 1 > 0 then some ⟨clampedStart, clampedEnd⟩
      else none

/-- Embeds `parseRangeHeader` from `parse-range-header.ts`.
`if (!rangeHeader) return null` is JS string falsiness: both an absent header
(`none`) and the empty string are rejected. -/
def parseRangeHeader (rangeHeader : Option String) (fileSize : Int)
    (maxChunkSize : Option Int) : Option ByteRange :=
  match rangeHeader with
  | none => none
  | some s =>
    if s.data = [] then none
    else
      match searchBytesRange s.data with
      | none => none
      | some (startStr, endStr) => rangeFromGroups startStr endStr fileSize maxChunkSize

/-! ## The play handler's range response stage

Embeds `StreamController.play`, lines 108-137 of `stream.controller.ts`, from
the point where the resource and file index have been validated.  The chosen
file is a list of bytes (kept generic in `α`); `file.length` is the
`file.length` byte count the controller passes to `parseRangeHeader`, and
`file.stream(\x7b start, end \x7d)` streams the inclusive byte window. -/

/-- The observable parts of the HTTP response the play handler builds. -/
structure PlayResponse (α : Type) where
  status : Nat
  contentRange : Option String
  contentLength : Option String
  contentType : Option String
  acceptRanges : Option String
  cacheControl : Option String
  body : Option (List α)
deriving DecidableEq

/-- `file.stream(\x7b start, end \x7d)`: the inclusive byte window
`[start, end]` of the file (webtorrent stream bounds are inclusive). -/
def fileStream {α : Type} (file : List α) (r : ByteRange) : List α :=
  (file.drop r.start.toNat).take (r.«end» - r.start + 1).toNat

/-- The GET branch of `StreamController.play` after validation (lines
116-137): parse the `Range` header against the file length; on failure answer
416 with `Content-Range: bytes */<length>` and no body; on success answer 206
with the negotiated window streamed as the body. -/
def play {α : Type} (file : List α) (fileType : String)
    (rangeHeader : Option String) : PlayResponse α :=
  match parseRangeHeader rangeHeader (file.length : Int) none with
  | none =>
    ⟨416, some ("bytes */" ++ toString (file.length : Int)),
     none, none, none, none, none⟩
  | some r =>
    ⟨206,
     some ("bytes " ++ toString r.start ++ "-" ++ toString r.«end» ++ "/" ++
       toString (file.length : Int)),
     some (toString (r.«end» - r.start + 1)),
     some fileType,
     some "bytes",
     some "public, max-age=604800",
     some (fileStream file r)⟩

/-! ## The torrent store

Embeds `TorrentStoreService` state and the `addTorrent` / `deleteTorrent` /
`getTorrent` operations.  The three maps of the service are modelled as
association lists: `torrentFilePaths` (the in-memory `Map`), `clientTorrents`
(the webtorrent client's resource list) and `durableState` (the JSON state
file `loadTorrentState` / `saveTorrentState` read and write).  Filesystem
effects (`rm` of the download directory and the torrent file) have no
observable part in these claims and are not modelled. -/

/-- A webtorrent resource as far as the store's bookkeeping observes it. -/
structure Torrent where
  infoHash : String
deriving DecidableEq

structure StoreState where
  torrentFilePaths : List (String × String)
  clientTorrents : List Torrent
  durableState : List (String × String)
deriving DecidableEq

/-- Association-list lookup, modelling both `Map.prototype.get` and JS object
indexing `state[key]` (absent key reads as `undefined`, i.e. `none`). -/
def lookupAssoc (m : List (String × String)) (k : String) : Option String :=
  (m.find? (fun e => e.1 == k)).map (fun e => e.2)

/-- `getTorrent(infoHash)`: `this.client.get(infoHash) || null`. -/
def getTorrent (s : StoreState) (infoHash : String) : Option Torrent :=
  s.clientTorrents.find? (fun t => t.infoHash == infoHash)

/-- JS object key assignment `state[k] = v` on an association list. -/
def setAssoc (m : List (String × String)) (k v : String) : List (String × String) :=
  (k, v) :: m.filter (fun e => ¬ e.1 = k)

/-- Embeds `addTorrent(torrentFilePath)` (lines 176-211 of
`torrent-store.service.ts`).  The durable state is read, and if some
already-loaded client torrent `t` satisfies `state[t.infoHash] ===
torrentFilePath` that torrent is resolved unchanged; otherwise the transfer
engine registers a new resource (`fresh`, the torrent the engine hands to the
`client.add` callback), the in-memory map and the durable state both record
its mapping, and the new resource is resolved. -/
def addTorrent (s : StoreState) (torrentFilePath : String) (fresh : Torrent) :
    Torrent × StoreState :=
  match s.clientTorrents.find?
      (fun t => lookupAssoc s.durableState t.infoHash == some torrentFilePath) with
  | some existingTorrent => (existingTorrent, s)
  | none =>
    (fresh,
     ⟨setAssoc s.torrentFilePaths fresh.infoHash torrentFilePath,
      s.clientTorrents ++ [fresh],
      setAssoc s.durableState fresh.infoHash torrentFilePath⟩)

/-- Embeds `deleteTorrent(infoHash)` (lines 228-248).  If either the in-memory
`torrentFilePaths` lookup or `getTorrent` comes back empty the call no-ops;
otherwise the hash is deleted from the durable state (and saved) and the
client releases the resource.  Note the method never deletes from
`this.torrentFilePaths`. -/
def deleteTorrent (s : StoreState) (infoHash : String) : StoreState :=
  match lookupAssoc s.torrentFilePaths infoHash, getTorrent s infoHash with
  | some _, some _ =>
    ⟨s.torrentFilePaths,
     s.clientTorrents.filter (fun t => ¬ t.infoHash = infoHash),
     s.durableState.filter (fun e => ¬ e.1 = infoHash)⟩
  | _, _ => s

/-! ## The ncore source service -/

/-- A search hit with its parsed torrent data, as
`filterTorrentsBySeasonAndEpisode` and the fallback path observe it:
`files` are the contained file paths, `mediaFileIndex` is the value of
`getMediaFileIndex(\x7b season, episode \x7d)` for the query under
consideration (its implementation lives in `ncore-torrent-details.ts`,
outside the embedded core, so it is carried as data), and `isSpeculated` is
the speculative-result flag the fallback path sets. -/
structure NcoreTorrentDetails where
  files : List String
  mediaFileIndex : Nat
  isSpeculated : Bool
deriving DecidableEq

/-- Embeds `filterTorrentsBySeasonAndEpisode` (lines 139-147 of
`ncore.service.ts`): keep a torrent iff `files[mediaFileIndex]` exists and
`isSupportedMedia` accepts its path.  `isSupportedMedia` lives outside the
embedded core and is a parameter. -/
def filterTorrentsBySeasonAndEpisode (isSupportedMedia : String → Bool)
    (torrents : List NcoreTorrentDetails) : List NcoreTorrentDetails :=
  torrents.filter (fun t =>
    match t.files.get? t.mediaFileIndex with
    | some file => isSupportedMedia file
    | none => false)

/-- Embeds `getTorrentsForImdbId` (lines 149-190 of `ncore.service.ts`).
The two network collaborators are passed as data: `primary` is what
`getTorrentsForQuery` returns for the by-imdb-id search, `metadata` is the
`cinemetaService.getMetadataByImdbId` outcome (its `meta.name` on success),
and `search` is `getTorrentsForQuery` for the name-based query.  The `try`
block covers the metadata lookup, the fallback search and the speculative
marking; any failure inside it is caught and yields `[]`. -/
def getTorrentsForImdbId (isSupportedMedia : String → Bool)
    (primary : List NcoreTorrentDetails)
    (metadata : Except Unit String)
    (search : String → Except Unit (List NcoreTorrentDetails)) :
    List NcoreTorrentDetails :=
  let torrents := filterTorrentsBySeasonAndEpisode isSupportedMedia primary
  if torrents.length > 0 then torrents
  else
    match metadata with
    | .error _ => []
    | .ok name =>
      match search name with
      | .error _ => []
      | .ok fallbackTorrents =>
        let marked := fallbackTorrents.map
          (fun t => ⟨t.files, t.mediaFileIndex, true⟩)
        filterTorrentsBySeasonAndEpisode isSupportedMedia marked

/-- A parsed `Set-Cookie` entry as `set-cookie-parser` returns it; `expires`
is the cookie expiry as a millisecond timestamp (`Date.prototype.getTime`),
absent when the cookie carries no expiry. -/
structure SetCookie where
  name : String
  value : String
  expires : Option Int
deriving DecidableEq

/-- The `cookiesCache` field of `NcoreService`: `pass` starts as `null`
(`none`), `cookieExpirationDate` starts as `0`. -/
structure CookiesCache where
  pass : Option String
  cookieExpirationDate : Int
deriving DecidableEq

/-- `allCookies.map((\x7b name, value \x7d) => name + value).join('; ')` with
the `name=value` formatting of line 65 of `ncore.service.ts`. -/
def cookieStringOf (allCookies : List SetCookie) : String :=
  String.intercalate "; " (allCookies.map (fun c => c.name ++ "=" ++ c.value))

/-- The login part of `getCookies` (lines 47-72): the POST to `login.php` is
modelled by its parsed `Set-Cookie` outcome `loginCookies`.  No `pass` cookie
or a `deleted` one throws; otherwise the joined cookie string is cached and
returned, and the expiry is updated only when the `pass` cookie carries one. -/
def performLogin (cache : CookiesCache) (loginCookies : List SetCookie) :
    Except String (String × CookiesCache) :=
  match loginCookies.find? (fun c => c.name == "pass") with
  | none => .error "Failed to log in to nCore. No pass cookie found"
  | some passCookie =>
    if passCookie.value = "deleted" then
      .error "Failed to log in to nCore. No pass cookie found"
    else
      let fullCookieString := cookieStringOf loginCookies
      let newExpiration := match passCookie.expires with
        | some e => e
        | none => cache.cookieExpirationDate
      .ok (fullCookieString, ⟨some fullCookieString, newExpiration⟩)

/-- Embeds `getCookies` (lines 40-73 of `ncore.service.ts`).  `now` is
`Date.now()`.  The cached string is returned only when `this.cookiesCache.pass`
is truthy (non-null and non-empty) and `cookieExpirationDate > Date.now() +
1000`; otherwise a fresh login runs. -/
def getCookies (cache : CookiesCache) (now : Int)
    (loginCookies : List SetCookie) : Except String (String × CookiesCache) :=
  match cache.pass with
  | some p =>
    if ¬ p = "" ∧ cache.cookieExpirationDate > now + 1000 then .ok (p, cache)
    else performLogin cache loginCookies
  | none => performLogin cache loginCookies

/-- The result of `document.querySelector('.download > a')?.getAttribute('href')`
on the fetched details page: `none` when no `.download > a` element exists
(the optional chain yields `undefined`), `some none` when the element has no
`href` attribute (`getAttribute` yields `null`), `some (some h)` otherwise. -/
structure DetailsPage where
  downloadAnchorHref : Option (Option String)
deriving DecidableEq

/-- How a JS template literal stringifies the three possible values of the
optional chain above. -/
def jsTemplateOfHref : Option (Option String) → String
  | none => "undefined"
  | some none => "null"
  | some (some s) => s

/-- Embeds `getTorrentUrlBySourceId` (lines 192-209 of `ncore.service.ts`)
once the details-page fetch succeeded: the download link is the template
literal `NCORE_URL + slash + href`, built whether or not the page has a
download-link element.  The `Option` result type is the `string | null`
surface the play handler checks; this implementation always returns `some`. -/
def getTorrentUrlBySourceId (ncoreUrl : String) (page : DetailsPage) :
    Option String :=
  some (ncoreUrl ++ "/" ++ jsTemplateOfHref page.downloadAnchorHref)

/-- The play handler's 404 guard `if (!torrentUrl)` (lines 85-89 of
`stream.controller.ts`) on a `string | null` value: JS falsiness holds for
`null`/`undefined` and for the empty string. -/
def playTorrentUrlMissing : Option String → Bool
  | none => true
  | some s => s == ""

/-! ## Claim-shaped definitions -/

/-- Formalisation of the claimed first-chunk priming policy, following the
spec's words (the code under verification contains no such policy, which is
what the accompanying theorems settle): for a minimum initial window of `W`
bytes, every negotiated range that starts at byte 0 and is narrower than `W`
is served widened to exactly the minimum window, capped at end of file, so
the served `Content-Length` is `min W fileLength`. -/
def minInitialWindowWidening (W : Int) : Prop :=
  ∀ (file : List Nat) (fileType : String) (rangeHeader : Option String)
    (r : ByteRange),
    parseRangeHeader rangeHeader (file.length : Int) none = some r →
    r.start = 0 → r.«end» - r.start + 1 < W →
    (play file fileType rangeHeader).contentLength =
      some (toString (min W (file.length : Int)))

/-- A store holding one torrent (`cafebabe`), with the durable state and the
in-memory `torrentFilePaths` map agreeing on it: exactly the state reached
after `addTorrent` of that torrent. -/
def storeWithOneTorrent : StoreState :=
  ⟨[("cafebabe", "/torrents/a.torrent")], [⟨"cafebabe"⟩],
   [("cafebabe", "/torrents/a.torrent")]⟩

/-! ## Decimal rendering of naturals

Used to build concrete `Range` header strings `bytes=A-B` for the universally
quantified claims about explicit and suffix ranges. -/

def digitChar (n : Nat) : Char :=
  if n = 0 then '0' else if n = 1 then '1' else if n = 2 then '2'
  else if n = 3 then '3' else if n = 4 then '4' else if n = 5 then '5'
  else if n = 6 then '6' else if n = 7 then '7' else if n = 8 then '8'
  else '9'

def natDigitsAux : Nat → Nat → List Char
  | 0, _ => []
  | fuel + 1, n =>
    if n < 10 then [digitChar n]
    else natDigitsAux fuel (n / 10) ++ [digitChar (n % 10)]

/-- The decimal digit string of `n`. -/
def natDigits (n : Nat) : List Char := natDigitsAux (n + 1) n

/-! ## Helper lemmas -/

lemma digitsToNat_append_singleton (l : List Char) (c : Char) :
    digitsToNat (l ++ [c]) = 10 * digitsToNat l + (c.toNat - 48) := by
  simp only [digitsToNat, List.foldl_append, List.foldl_cons, List.foldl_nil]
  omega

lemma digitChar_isDigit (n : Nat) : (digitChar n).isDigit = true := by
  unfold digitChar
  split_ifs <;> decide

lemma digitChar_toNat (n : Nat) (h : n < 10) : (digitChar n).toNat - 48 = n := by
  interval_cases n <;> decide

lemma natDigitsAux_spec (fuel : Nat) :
    ∀ n, n < fuel →
      digitsToNat (natDigitsAux fuel n) = n ∧ natDigitsAux fuel n ≠ [] ∧
      ∀ c ∈ natDigitsAux fuel n, c.isDigit = true := by
  induction fuel with
  | zero => intro n hn; omega
  | succ fuel ih =>
    intro n hn
    by_cases h10 : n < 10
    · refine ⟨?_, by simp [natDigitsAux, h10], ?_⟩
      · simp only [natDigitsAux, if_pos h10, digitsToNat, List.foldl_cons,
          List.foldl_nil]
        have := digitChar_toNat n h10
        omega
      · intro c hc
        simp only [natDigitsAux, if_pos h10, List.mem_singleton] at hc
        subst hc
        exact digitChar_isDigit n
    · have hdiv : n / 10 < fuel := by omega
      obtain ⟨hval, _, hdig⟩ := ih (n / 10) hdiv
      refine ⟨?_, by simp [natDigitsAux, h10], ?_⟩
      · simp only [natDigitsAux, if_neg h10]
        rw [digitsToNat_append_singleton, hval, digitChar_toNat (n % 10) (by omega)]
        omega
      · intro c hc
        simp only [natDigitsAux, if_neg h10, List.mem_append,
          List.mem_singleton] at hc
        rcases hc with hc | hc
        · exact hdig c hc
        · subst hc; exact digitChar_isDigit _

lemma digitsToNat_natDigits (n : Nat) : digitsToNat (natDigits n) = n :=
  (natDigitsAux_spec (n + 1) n (by omega)).1

lemma natDigits_ne_nil (n : Nat) : natDigits n ≠ [] :=
  (natDigitsAux_spec (n + 1) n (by omega)).2.1

lemma natDigits_isDigit (n : Nat) : ∀ c ∈ natDigits n, c.isDigit = true :=
  (natDigitsAux_spec (n + 1) n (by omega)).2.2

lemma takeWhile_digits_append (d t : List Char)
    (hd : ∀ c ∈ d, c.isDigit = true) (ht : t.takeWhile Char.isDigit = []) :
    (d ++ t).takeWhile Char.isDigit = d := by
  induction d with
  | nil => simpa using ht
  | cons c d ihd =>
    have hc : c.isDigit = true := hd c (by simp)
    simp only [List.cons_append, List.takeWhile_cons, hc, if_true]
    rw [ihd (fun x hx => hd x (by simp [hx]))]

lemma dropWhile_digits_append (d t : List Char)
    (hd : ∀ c ∈ d, c.isDigit = true) (ht : t.dropWhile Char.isDigit = t) :
    (d ++ t).dropWhile Char.isDigit = t := by
  induction d with
  | nil => simpa using ht
  | cons c d ihd =>
    have hc : c.isDigit = true := hd c (by simp)
    simp only [List.cons_append, List.dropWhile_cons, hc, if_true]
    exact ihd (fun x hx => hd x (by simp [hx]))

lemma takeWhile_digits_self (d : List Char) (hd : ∀ c ∈ d, c.isDigit = true) :
    d.takeWhile Char.isDigit = d := by
  have := takeWhile_digits_append d [] hd (by simp)
  simpa using this

lemma matchBytesRangeAt_explicit (da db : List Char)
    (hda : ∀ c ∈ da, c.isDigit = true) (hdb : ∀ c ∈ db, c.isDigit = true)
    (hna : da ≠ []) (hnb : db ≠ []) :
    matchBytesRangeAt ("bytes=".data ++ (da ++ '-' :: db)) =
      some (some da, some db) := by
  have h6 : ("bytes=".data).length = 6 := rfl
  have htake : (("bytes=".data ++ (da ++ '-' :: db)).take 6) = "bytes=".data :=
    List.take_left' h6
  have hdrop : (("bytes=".data ++ (da ++ '-' :: db)).drop 6) = da ++ '-' :: db :=
    List.drop_left' h6
  have htw : (da ++ '-' :: db).takeWhile Char.isDigit = da :=
    takeWhile_digits_append da ('-' :: db) hda (by simp [List.takeWhile_cons])
  have hdw : (da ++ '-' :: db).dropWhile Char.isDigit = '-' :: db :=
    dropWhile_digits_append da ('-' :: db) hda (by simp [List.dropWhile_cons])
  simp only [matchBytesRangeAt, htake, hdrop, htw, hdw, if_pos rfl,
    takeWhile_digits_self db hdb, if_neg hna, if_neg hnb]
  simp

lemma matchBytesRangeAt_suffix (db : List Char)
    (hdb : ∀ c ∈ db, c.isDigit = true) (hnb : db ≠ []) :
    matchBytesRangeAt ("bytes=".data ++ '-' :: db) = some (none, some db) := by
  have h6 : ("bytes=".data).length = 6 := rfl
  have htake : (("bytes=".data ++ '-' :: db).take 6) = "bytes=".data :=
    List.take_left' h6
  have hdrop : (("bytes=".data ++ '-' :: db).drop 6) = '-' :: db :=
    List.drop_left' h6
  have htw : ('-' :: db).takeWhile Char.isDigit = [] := by
    simp [List.takeWhile_cons]
  have hdw : ('-' :: db).dropWhile Char.isDigit = '-' :: db := by
    simp [List.dropWhile_cons]
  simp only [matchBytesRangeAt, htake, hdrop, htw, hdw, if_pos rfl,
    takeWhile_digits_self db hdb, if_pos rfl, if_neg hnb]
  simp

lemma searchBytesRange_head (c : Char) (rest : List Char) (r)
    (h : matchBytesRangeAt (c :: rest) = some r) :
    searchBytesRange (c :: rest) = some r := by
  simp [searchBytesRange, h]

/-- Every range `rangeFromGroups` produces lies within `[0, fileSize - 1]`
with `start ≤ end`, provided the max-chunk clamp is absent or positive. -/
lemma rangeFromGroups_bounds (ss es : Option (List Char)) (fs : Int)
    (mc : Option Int) (hfs : 0 ≤ fs) (hmc : ∀ m, mc = some m → 0 < m)
    (r : ByteRange) (h : rangeFromGroups ss es fs mc = some r) :
    0 ≤ r.start ∧ r.start ≤ r.«end» ∧ r.«end» ≤ fs - 1 := by
  obtain ⟨rs, re⟩ := r
  show 0 ≤ rs ∧ rs ≤ re ∧ re ≤ fs - 1
  rcases mc with _ | m
  · rcases ss with _ | da <;> rcases es with _ | db
    · simp [rangeFromGroups] at h
    · have h0 : (0 : Int) ≤ (digitsToNat db : Int) := Int.natCast_nonneg _
      simp only [rangeFromGroups, clamp, reduceCtorEq, not_false_eq_true,
        true_and, and_false, false_and, and_true, if_false, if_true,
        not_true_eq_false, ite_false, ite_true] at h
      split_ifs at h <;>
        simp only [Option.some.injEq, ByteRange.mk.injEq, reduceCtorEq] at h <;>
        omega
    · have h0 : (0 : Int) ≤ (digitsToNat da : Int) := Int.natCast_nonneg _
      simp only [rangeFromGroups, clamp, reduceCtorEq, not_false_eq_true,
        true_and, and_false, false_and, and_true, if_false, if_true,
        not_true_eq_false, ite_false, ite_true] at h
      split_ifs at h <;>
        simp only [Option.some.injEq, ByteRange.mk.injEq, reduceCtorEq] at h <;>
        omega
    · have h0 : (0 : Int) ≤ (digitsToNat da : Int) := Int.natCast_nonneg _
      have h1 : (0 : Int) ≤ (digitsToNat db : Int) := Int.natCast_nonneg _
      simp only [rangeFromGroups, clamp, reduceCtorEq, not_false_eq_true,
        true_and, and_false, false_and, and_true, if_false, if_true,
        not_true_eq_false, ite_false, ite_true] at h
      split_ifs at h <;>
        simp only [Option.some.injEq, ByteRange.mk.injEq, reduceCtorEq] at h <;>
        omega
  · have hm : 0 < m := hmc m rfl
    have hne : ¬ m = 0 := by omega
    rcases ss with _ | da <;> rcases es with _ | db
    · simp [rangeFromGroups] at h
    · have h0 : (0 : Int) ≤ (digitsToNat db : Int) := Int.natCast_nonneg _
      simp only [rangeFromGroups, clamp, hne, reduceCtorEq, not_false_eq_true,
        true_and, and_false, false_and, and_true, if_false, if_true,
        not_true_eq_false, ite_false, ite_true] at h
      split_ifs at h <;>
        simp only [Option.some.injEq, ByteRange.mk.injEq, reduceCtorEq] at h <;>
        omega
    · have h0 : (0 : Int) ≤ (digitsToNat da : Int) := Int.natCast_nonneg _
      simp only [rangeFromGroups, clamp, hne, reduceCtorEq, not_false_eq_true,
        true_and, and_false, false_and, and_true, if_false, if_true,
        not_true_eq_false, ite_false, ite_true] at h
      split_ifs at h <;>
        simp only [Option.some.injEq, ByteRange.mk.injEq, reduceCtorEq] at h <;>
        omega
    · have h0 : (0 : Int) ≤ (digitsToNat da : Int) := Int.natCast_nonneg _
      have h1 : (0 : Int) ≤ (digitsToNat db : Int) := Int.natCast_nonneg _
      simp only [rangeFromGroups, clamp, hne, reduceCtorEq, not_false_eq_true,
        true_and, and_false, false_and, and_true, if_false, if_true,
        not_true_eq_false, ite_false, ite_true] at h
      split_ifs at h <;>
        simp only [Option.some.injEq, ByteRange.mk.injEq, reduceCtorEq] at h <;>
        omega

/-- Every range `parseRangeHeader` produces lies within `[0, fileSize - 1]`
with `start ≤ end`, provided the max-chunk clamp is absent or positive. -/
lemma parseRangeHeader_bounds (rangeHeader : Option String) (fileSize : Int)
    (maxChunkSize : Option Int) (hfs : 0 ≤ fileSize)
    (hmc : ∀ m, maxChunkSize = some m → 0 < m) (r : ByteRange)
    (h : parseRangeHeader rangeHeader fileSize maxChunkSize = some r) :
    0 ≤ r.start ∧ r.start ≤ r.«end» ∧ r.«end» ≤ fileSize - 1 := by
  rcases rangeHeader with _ | s
  · simp [parseRangeHeader] at h
  · simp only [parseRangeHeader] at h
    split_ifs at h
    rcases hsearch : searchBytesRange s.data with _ | ⟨ss, es⟩
    · rw [hsearch] at h; exact absurd h (by simp)
    · rw [hsearch] at h
      exact rangeFromGroups_bounds ss es fileSize maxChunkSize hfs hmc r h

lemma searchBytesRange_bytesLit (t : List Char) (r)
    (h : matchBytesRangeAt ("bytes=".data ++ t) = some r) :
    searchBytesRange ("bytes=".data ++ t) = some r := by
  have hb : "bytes=".data = 'b' :: "ytes=".data := by decide
  rw [hb, List.cons_append]
  apply searchBytesRange_head
  rw [← List.cons_append, ← hb]
  exact h

lemma parseRangeHeader_mk_bytesLit (t : List Char) (ss es : Option (List Char))
    (fs : Int) (mc : Option Int)
    (h : matchBytesRangeAt ("bytes=".data ++ t) = some (ss, es)) :
    parseRangeHeader (some (String.mk ("bytes=".data ++ t))) fs mc =
      rangeFromGroups ss es fs mc := by
  have hdata : (String.mk ("bytes=".data ++ t)).data = "bytes=".data ++ t := rfl
  have h6 : ("bytes=".data).length = 6 := rfl
  have hne : ¬ ("bytes=".data ++ t) = [] := by
    intro heq
    have hlen := congrArg List.length heq
    rw [List.length_append, h6] at hlen
    simp at hlen
  simp only [parseRangeHeader, hdata, if_neg hne,
    searchBytesRange_bytesLit t _ h]

lemma rangeFromGroups_explicit_identity (A B : Nat) (fs : Int)
    (hAB : A ≤ B) (hB : (B : Int) < fs) :
    rangeFromGroups (some (natDigits A)) (some (natDigits B)) fs none =
      some ⟨(A : Int), (B : Int)⟩ := by
  have hAB' : (A : Int) ≤ (B : Int) := by exact_mod_cast hAB
  have hA0 : (0 : Int) ≤ (A : Int) := Int.natCast_nonneg _
  simp only [rangeFromGroups, digitsToNat_natDigits, clamp, reduceCtorEq,
    not_false_eq_true, true_and, and_false, false_and, and_true, if_false,
    if_true, not_true_eq_false, ite_false, ite_true]
  split_ifs <;>
    first
      | (exfalso; omega)
      | (simp only [Option.some.injEq, ByteRange.mk.injEq] <;> omega)

lemma rangeFromGroups_suffix_rejected (K : Nat) (fs : Int) (hfs : fs ≤ (K : Int)) :
    rangeFromGroups none (some (natDigits K)) fs none = none := by
  simp only [rangeFromGroups, digitsToNat_natDigits, clamp, reduceCtorEq,
    not_false_eq_true, true_and, and_false, false_and, and_true, if_false,
    if_true, not_true_eq_false, ite_false, ite_true]
  split_ifs <;> first | rfl | (exfalso; omega)

lemma parseRangeHeader_suffix_rejected (K : Nat) (fs : Int) (hfs : fs ≤ (K : Int)) :
    parseRangeHeader (some (String.mk ("bytes=".data ++ '-' :: natDigits K)))
      fs none = none := by
  rw [parseRangeHeader_mk_bytesLit ('-' :: natDigits K) none (some (natDigits K))
    fs none (matchBytesRangeAt_suffix (natDigits K) (natDigits_isDigit K)
      (natDigits_ne_nil K))]
  exact rangeFromGroups_suffix_rejected K fs hfs

lemma find?_key_filter_ne (l : List (String × String)) (k : String) :
    (l.filter (fun e => ¬ e.1 = k)).find? (fun e => e.1 == k) = none := by
  rw [List.find?_eq_none]
  intro e he
  rcases List.mem_filter.mp he with ⟨_, hne⟩
  simp only [decide_eq_true_eq] at hne
  simp [hne]

lemma find?_hash_filter_ne (l : List Torrent) (k : String) :
    (l.filter (fun t => ¬ t.infoHash = k)).find? (fun t => t.infoHash == k) = none := by
  rw [List.find?_eq_none]
  intro t ht
  rcases List.mem_filter.mp ht with ⟨_, hne⟩
  simp only [decide_eq_true_eq] at hne
  simp [hne]

/-! ## Claim theorems -/

/-- Claim C6 (confirmed): for every range header string, every non-negative
file size, and a max-chunk clamp that is absent or positive, whenever
`parseRangeHeader` returns a range rather than `null`, that range satisfies
`0 ≤ start ≤ end ≤ fileSize - 1` (inclusive, 0-indexed, within the file). -/
theorem parseRangeHeader_within_file (rangeHeader : Option String)
    (fileSize : Int) (maxChunkSize : Option Int) (hfs : 0 ≤ fileSize)
    (hmc : ∀ m, maxChunkSize = some m → 0 < m) (r : ByteRange)
    (h : parseRangeHeader rangeHeader fileSize maxChunkSize = some r) :
    0 ≤ r.start ∧ r.start ≤ r.«end» ∧ r.«end» ≤ fileSize - 1 :=
  parseRangeHeader_bounds rangeHeader fileSize maxChunkSize hfs hmc r h

/-- Witness for C6 at the concrete input `bytes=2-4` on a 10-byte file. -/
theorem parseRangeHeader_within_file_witness :
    0 ≤ (ByteRange.mk 2 4).start ∧
    (ByteRange.mk 2 4).start ≤ (ByteRange.mk 2 4).«end» ∧
    (ByteRange.mk 2 4).«end» ≤ (10 : Int) - 1 :=
  parseRangeHeader_within_file (some "bytes=2-4") 10 none (by decide)
    (fun m hm => by simp at hm) ⟨2, 4⟩ (by decide)

/-- Claim C8 (confirmed): for all integers `0 ≤ A ≤ B < fileLength`, parsing
the explicit range header `bytes=A-B` with no max-chunk clamp returns exactly
`\x7b start: A, end: B \x7d` unchanged (identity on already-valid ranges). -/
theorem parseRangeHeader_explicit_identity (A B : Nat) (fileLength : Int)
    (hAB : A ≤ B) (hB : (B : Int) < fileLength) :
    parseRangeHeader
      (some (String.mk ("bytes=".data ++ (natDigits A ++ '-' :: natDigits B))))
      fileLength none = some ⟨(A : Int), (B : Int)⟩ := by
  rw [parseRangeHeader_mk_bytesLit (natDigits A ++ '-' :: natDigits B)
    (some (natDigits A)) (some (natDigits B)) fileLength none
    (matchBytesRangeAt_explicit (natDigits A) (natDigits B)
      (natDigits_isDigit A) (natDigits_isDigit B)
      (natDigits_ne_nil A) (natDigits_ne_nil B))]
  exact rangeFromGroups_explicit_identity A B fileLength hAB hB

/-- Witness for C8 at the concrete input `bytes=1-2` on a 5-byte file. -/
theorem parseRangeHeader_explicit_identity_witness :
    parseRangeHeader
      (some (String.mk ("bytes=".data ++ (natDigits 1 ++ '-' :: natDigits 2))))
      5 none = some ⟨(1 : Nat), (2 : Nat)⟩ :=
  parseRangeHeader_explicit_identity 1 2 5 (by decide) (by decide)

/-- Counterexample to claim C2 as stated: on a 1-byte file the suffix header
`bytes=-2` (suffix length 2 > file length 1) parses to `null`, not to the
claimed full-file range `\x7b start: 0, end: 0 \x7d`; the pre-clamp check
`end >= fileSize` rejects it before the clamp can run. -/
theorem parseRangeHeader_suffix_not_clamped :
    parseRangeHeader (some "bytes=-2") 1 none = none ∧
    ¬ parseRangeHeader (some "bytes=-2") 1 none = some ⟨0, 0⟩ := by
  refine ⟨by decide, ?_⟩
  intro h
  exact absurd h (by decide)

/-- Claim C2 as amended: for `fileLength > 0` and `N > fileLength`, parsing
`bytes=-N` yields the same result as parsing with `N = fileLength`, but that
common result is `null` (rejected as unsatisfiable), not the full-file range:
the raw-bound check rejects any suffix length `≥ fileLength` outright. -/
theorem parseRangeHeader_suffix_overlong (fileLength N : Nat)
    (hpos : 0 < fileLength) (hN : fileLength < N) :
    parseRangeHeader (some (String.mk ("bytes=".data ++ '-' :: natDigits N)))
        (fileLength : Int) none =
      parseRangeHeader
        (some (String.mk ("bytes=".data ++ '-' :: natDigits fileLength)))
        (fileLength : Int) none ∧
    parseRangeHeader (some (String.mk ("bytes=".data ++ '-' :: natDigits N)))
        (fileLength : Int) none = none := by
  have h1 : parseRangeHeader
      (some (String.mk ("bytes=".data ++ '-' :: natDigits N)))
      (fileLength : Int) none = none :=
    parseRangeHeader_suffix_rejected N (fileLength : Int) (by exact_mod_cast hN.le)
  have h2 : parseRangeHeader
      (some (String.mk ("bytes=".data ++ '-' :: natDigits fileLength)))
      (fileLength : Int) none = none :=
    parseRangeHeader_suffix_rejected fileLength (fileLength : Int) (le_refl _)
  exact ⟨h1.trans h2.symm, h1⟩

/-- Witness for the amended C2 at `fileLength = 1`, `N = 2`. -/
theorem parseRangeHeader_suffix_overlong_witness :
    parseRangeHeader (some (String.mk ("bytes=".data ++ '-' :: natDigits 2)))
        ((1 : Nat) : Int) none =
      parseRangeHeader
        (some (String.mk ("bytes=".data ++ '-' :: natDigits 1)))
        ((1 : Nat) : Int) none ∧
    parseRangeHeader (some (String.mk ("bytes=".data ++ '-' :: natDigits 2)))
        ((1 : Nat) : Int) none = none :=
  parseRangeHeader_suffix_overlong 1 2 (by decide) (by decide)

/-- Counterexample to claim C1 as stated: there is no minimum initial window
of two or more bytes for which the negotiated-range widening policy holds -
a `bytes=0-0` request on a 3-byte file is served with `Content-Length: 1`,
not widened to the window. -/
theorem play_no_min_window_widening :
    ¬ ∃ W : Int, 2 ≤ W ∧ minInitialWindowWidening W := by
  rintro ⟨W, hW, h⟩
  have hp : parseRangeHeader (some "bytes=0-0")
      ((([0, 1, 2] : List Nat).length : Int)) none = some ⟨0, 0⟩ := by decide
  have hwide := h [0, 1, 2] "video/mp4" (some "bytes=0-0") ⟨0, 0⟩ hp rfl
    (show (0 : Int) - 0 + 1 < W by omega)
  have hact : (play ([0, 1, 2] : List Nat) "video/mp4"
      (some "bytes=0-0")).contentLength = some "1" := by decide
  have hlen : ((([0, 1, 2] : List Nat).length : Nat) : Int) = 3 := by decide
  rw [hact, hlen] at hwide
  have hcase : min W 3 = 2 ∨ min W 3 = 3 := by omega
  rcases hcase with h2 | h2 <;> rw [h2] at hwide <;> exact absurd hwide (by decide)

/-- Claim C1 as amended: a negotiated range that starts at byte 0 is served by
the play handler exactly as parsed - no first-chunk widening is applied: the
body is precisely the first `end + 1` bytes and `Content-Length` is the
negotiated width. -/
theorem play_serves_zero_start_range_unwidened (file : List Nat)
    (fileType : String) (rangeHeader : Option String) (r : ByteRange)
    (hp : parseRangeHeader rangeHeader (file.length : Int) none = some r)
    (h0 : r.start = 0) :
    (play file fileType rangeHeader).body =
      some (file.take (r.«end» + 1).toNat) ∧
    ((file.take (r.«end» + 1).toNat).length : Int) = r.«end» - r.start + 1 ∧
    (play file fileType rangeHeader).contentLength =
      some (toString (r.«end» - r.start + 1)) := by
  obtain ⟨hs, hse, hef⟩ := parseRangeHeader_bounds rangeHeader
    (file.length : Int) none (Int.natCast_nonneg _) (fun m hm => by simp at hm)
    r hp
  refine ⟨?_, ?_, ?_⟩
  · simp only [play, hp, fileStream, h0, Int.toNat_zero, List.drop_zero,
      sub_zero]
  · rw [List.length_take, h0]
    omega
  · simp only [play, hp]

/-- Witness for the amended C1: `bytes=0-0` on the 3-byte file `[10, 20, 30]`
is served with exactly one body byte. -/
theorem play_serves_zero_start_range_unwidened_witness :
    (play ([10, 20, 30] : List Nat) "video/mp4" (some "bytes=0-0")).body =
      some [10] := by
  have h := play_serves_zero_start_range_unwidened [10, 20, 30] "video/mp4"
    (some "bytes=0-0") ⟨0, 0⟩ (by decide) rfl
  exact h.1.trans (by decide)

/-- Claim C9 (confirmed): on a GET play request with known resource and valid
file index, a missing or invalid `Range` header yields a 416 response with
`Content-Range: bytes */<fileLength>` and no body, and a negotiated range
`\x7b start, end \x7d` yields a 206 response with the full header set and a
body that streams exactly the bytes `[start, end]` (its length is
`end - start + 1`). -/
theorem play_get_response (α : Type) (file : List α) (fileType : String)
    (rangeHeader : Option String) :
    (parseRangeHeader rangeHeader (file.length : Int) none = none →
       play file fileType rangeHeader =
         ⟨416, some ("bytes */" ++ toString (file.length : Int)),
          none, none, none, none, none⟩) ∧
    (∀ r, parseRangeHeader rangeHeader (file.length : Int) none = some r →
       play file fileType rangeHeader =
         ⟨206,
          some ("bytes " ++ toString r.start ++ "-" ++ toString r.«end» ++
            "/" ++ toString (file.length : Int)),
          some (toString (r.«end» - r.start + 1)),
          some fileType,
          some "bytes",
          some "public, max-age=604800",
          some ((file.drop r.start.toNat).take (r.«end» - r.start + 1).toNat)⟩ ∧
       ((((file.drop r.start.toNat).take
           (r.«end» - r.start + 1).toNat).length : Nat) : Int) =
         r.«end» - r.start + 1) := by
  refine ⟨fun h => ?_, fun r h => ?_⟩
  · simp only [play, h]
  · obtain ⟨hs, hse, hef⟩ := parseRangeHeader_bounds rangeHeader
      (file.length : Int) none (Int.natCast_nonneg _)
      (fun m hm => by simp at hm) r h
    refine ⟨?_, ?_⟩
    · simp only [play, h, fileStream]
    · rw [List.length_take, List.length_drop]
      omega

/-- Witness for C9: `bytes=1-2` on the 5-byte file `[10, 20, 30, 40, 50]`
yields 206 with `Content-Range: bytes 1-2/5`, `Content-Length: 2` and body
`[20, 30]`; an absent header yields 416 with `Content-Range: bytes */5`. -/
theorem play_get_response_witness :
    play ([10, 20, 30, 40, 50] : List Nat) "video/mp4" (some "bytes=1-2") =
      ⟨206, some "bytes 1-2/5", some "2", some "video/mp4", some "bytes",
       some "public, max-age=604800", some [20, 30]⟩ ∧
    play ([10, 20, 30, 40, 50] : List Nat) "video/mp4" none =
      ⟨416, some "bytes */5", none, none, none, none, none⟩ := by
  constructor
  · have h := (play_get_response Nat [10, 20, 30, 40, 50] "video/mp4"
      (some "bytes=1-2")).2 ⟨1, 2⟩ (by decide)
    exact h.1.trans (by decide)
  · have h := (play_get_response Nat [10, 20, 30, 40, 50] "video/mp4" none).1
      (by decide)
    exact h.trans (by decide)

/-- Counterexample to claim C3 as stated: on a store holding the torrent
`cafebabe` (both lookups defined, so `deleteTorrent` completes its real
branch), the delete empties the client and the durable state, yet the
in-memory `torrentFilePaths` map still contains the hash - the method never
deletes from it. -/
theorem deleteTorrent_leaves_inmemory_path_entry :
    getTorrent storeWithOneTorrent "cafebabe" = some ⟨"cafebabe"⟩ ∧
    lookupAssoc storeWithOneTorrent.torrentFilePaths "cafebabe" =
      some "/torrents/a.torrent" ∧
    getTorrent (deleteTorrent storeWithOneTorrent "cafebabe") "cafebabe" =
      none ∧
    lookupAssoc (deleteTorrent storeWithOneTorrent "cafebabe").durableState
      "cafebabe" = none ∧
    lookupAssoc (deleteTorrent storeWithOneTorrent "cafebabe").torrentFilePaths
      "cafebabe" = some "/torrents/a.torrent" := by
  decide

/-- Claim C3 as amended: for every infoHash on which `deleteTorrent` runs its
real branch (the resource and its path are both known), a subsequent
`getTorrent` returns absent and the durable persisted state no longer
contains the hash; the in-memory `torrentFilePaths` map, however, is left
untouched. -/
theorem deleteTorrent_clears_durable_and_client (s : StoreState) (h : String)
    (ht : ¬ getTorrent s h = none)
    (hp : ¬ lookupAssoc s.torrentFilePaths h = none) :
    getTorrent (deleteTorrent s h) h = none ∧
    lookupAssoc (deleteTorrent s h).durableState h = none := by
  rcases hlp : lookupAssoc s.torrentFilePaths h with _ | p
  · exact absurd hlp hp
  rcases hgt : getTorrent s h with _ | t
  · exact absurd hgt ht
  constructor
  · simp only [deleteTorrent, hlp, hgt]
    simp only [getTorrent]
    exact find?_hash_filter_ne _ _
  · simp only [deleteTorrent, hlp, hgt]
    simp only [lookupAssoc]
    rw [find?_key_filter_ne]
    rfl

/-- Witness for the amended C3 on the one-torrent store. -/
theorem deleteTorrent_clears_durable_and_client_witness :
    getTorrent (deleteTorrent storeWithOneTorrent "cafebabe") "cafebabe" =
      none ∧
    lookupAssoc (deleteTorrent storeWithOneTorrent "cafebabe").durableState
      "cafebabe" = none :=
  deleteTorrent_clears_durable_and_client storeWithOneTorrent "cafebabe"
    (by decide) (by decide)

/-- Claim C4 (confirmed): when some already-loaded client torrent is mapped
to the requested torrent-file path by the persisted state, `addTorrent`
resolves to that existing resource and leaves the store unchanged - in
particular no second transfer resource is registered with the engine. -/
theorem addTorrent_idempotent_for_loaded_path (s : StoreState) (p : String)
    (fresh : Torrent)
    (hexists : ∃ t ∈ s.clientTorrents,
      lookupAssoc s.durableState t.infoHash = some p) :
    (addTorrent s p fresh).2 = s ∧
    (addTorrent s p fresh).1 ∈ s.clientTorrents ∧
    lookupAssoc s.durableState (addTorrent s p fresh).1.infoHash = some p := by
  have hsome : (s.clientTorrents.find?
      (fun t => lookupAssoc s.durableState t.infoHash == some p)).isSome =
        true := by
    rw [List.find?_isSome]
    obtain ⟨t, htmem, hteq⟩ := hexists
    exact ⟨t, htmem, by simp [hteq]⟩
  obtain ⟨t0, hfind⟩ := Option.isSome_iff_exists.mp hsome
  have hmem := List.mem_of_find?_eq_some hfind
  have hpred := List.find?_some hfind
  rw [beq_iff_eq] at hpred
  refine ⟨?_, ?_, ?_⟩
  · simp only [addTorrent, hfind]
  · simp only [addTorrent, hfind]
    exact hmem
  · simp only [addTorrent, hfind]
    exact hpred

/-- Witness for C4: re-adding the already-loaded path of the one-torrent
store returns the loaded torrent and changes nothing. -/
theorem addTorrent_idempotent_witness :
    (addTorrent storeWithOneTorrent "/torrents/a.torrent" ⟨"bb"⟩).2 =
      storeWithOneTorrent ∧
    (addTorrent storeWithOneTorrent "/torrents/a.torrent" ⟨"bb"⟩).1 ∈
      storeWithOneTorrent.clientTorrents ∧
    lookupAssoc storeWithOneTorrent.durableState
      (addTorrent storeWithOneTorrent "/torrents/a.torrent" ⟨"bb"⟩).1.infoHash =
      some "/torrents/a.torrent" :=
  addTorrent_idempotent_for_loaded_path storeWithOneTorrent
    "/torrents/a.torrent" ⟨"bb"⟩ (by decide)

/-- Claim C5 (confirmed): when the by-identifier search yields zero candidates
after episode/season filtering, `getTorrentsForImdbId` falls back to a
name-based search whose every returned candidate carries the speculative flag,
and any failure on the fallback path (metadata lookup error, and likewise a
fallback-search error) yields the empty list instead of propagating. -/
theorem getTorrentsForImdbId_fallback (isSupportedMedia : String → Bool)
    (primary : List NcoreTorrentDetails) (metadata : Except Unit String)
    (search : String → Except Unit (List NcoreTorrentDetails))
    (hempty : filterTorrentsBySeasonAndEpisode isSupportedMedia primary = []) :
    (metadata = .error () →
       getTorrentsForImdbId isSupportedMedia primary metadata search = []) ∧
    (∀ name, metadata = .ok name → search name = .error () →
       getTorrentsForImdbId isSupportedMedia primary metadata search = []) ∧
    (∀ name ts, metadata = .ok name → search name = .ok ts →
       getTorrentsForImdbId isSupportedMedia primary metadata search =
         filterTorrentsBySeasonAndEpisode isSupportedMedia
           (ts.map (fun t => ⟨t.files, t.mediaFileIndex, true⟩)) ∧
       ∀ t ∈ getTorrentsForImdbId isSupportedMedia primary metadata search,
         t.isSpeculated = true) := by
  refine ⟨fun hm => ?_, fun name hm hs => ?_, fun name ts hm hs => ?_⟩
  · simp [getTorrentsForImdbId, hempty, hm]
  · simp [getTorrentsForImdbId, hempty, hm, hs]
  · refine ⟨by simp [getTorrentsForImdbId, hempty, hm, hs], ?_⟩
    intro t htmem
    simp only [getTorrentsForImdbId, hempty, hm, hs, List.length_nil,
      gt_iff_lt, lt_self_iff_false, if_false, ite_false] at htmem
    rcases List.mem_filter.mp htmem with ⟨htm, _⟩
    rcases List.mem_map.mp htm with ⟨t', _, rfl⟩
    rfl

/-- Witness for C5: an empty by-identifier result with one name-based hit
returns that one candidate, marked speculative. -/
theorem getTorrentsForImdbId_fallback_witness :
    getTorrentsForImdbId (fun _ => true) [] (.ok "Title")
        (fun _ => .ok [⟨["e1.mkv"], 0, false⟩]) = [⟨["e1.mkv"], 0, true⟩] := by
  have h := getTorrentsForImdbId_fallback (fun _ => true) [] (.ok "Title")
    (fun _ => .ok [⟨["e1.mkv"], 0, false⟩]) rfl
  exact (h.2.2 "Title" [⟨["e1.mkv"], 0, false⟩] rfl rfl).1.trans (by decide)

/-- Claim C7 (confirmed): `getCookies` never serves the cached credential
session when it is within 1 second of expiry (or already expired): in that
situation the call is exactly a fresh login, whose successful result is the
newly joined cookie string (also recorded in the new cache), and whose
failure (no `pass` cookie obtainable) is an error even though a cached value
exists. -/
theorem getCookies_near_expiry_logs_in (cache : CookiesCache) (now : Int)
    (loginCookies : List SetCookie)
    (hexp : cache.cookieExpirationDate ≤ now + 1000) :
    getCookies cache now loginCookies = performLogin cache loginCookies ∧
    (∀ s c', performLogin cache loginCookies = .ok (s, c') →
       s = cookieStringOf loginCookies ∧
       c'.pass = some (cookieStringOf loginCookies)) ∧
    (loginCookies.find? (fun c => c.name == "pass") = none →
       getCookies cache now loginCookies =
         .error "Failed to log in to nCore. No pass cookie found") := by
  have hmain : getCookies cache now loginCookies =
      performLogin cache loginCookies := by
    rcases hc : cache.pass with _ | p
    · simp [getCookies, hc]
    · simp only [getCookies, hc]
      rw [if_neg]
      rintro ⟨-, hgt⟩
      omega
  refine ⟨hmain, fun s c' hok => ?_, fun hfind => ?_⟩
  · rcases hf : loginCookies.find? (fun c => c.name == "pass") with _ | pc
    · simp only [performLogin, hf] at hok
      exact absurd hok (by simp)
    · simp only [performLogin, hf] at hok
      split_ifs at hok
      simp only [Except.ok.injEq, Prod.mk.injEq] at hok
      obtain ⟨hs, hc'⟩ := hok
      subst hs
      subst hc'
      exact ⟨rfl, rfl⟩
  · rw [hmain]
    simp [performLogin, hfind]

/-- Witness for C7: a cache within 1 second of expiry (expiry 5000, now 4000)
is not served; the fresh login is attempted, and with no `pass` cookie in
the response the call errors instead of returning the cached value. -/
theorem getCookies_near_expiry_logs_in_witness :
    getCookies ⟨some "cached", 5000⟩ 4000 [] =
      Except.error "Failed to log in to nCore. No pass cookie found" := by
  have h := getCookies_near_expiry_logs_in ⟨some "cached", 5000⟩ 4000 []
    (by decide)
  exact h.2.2 rfl

/-- Claim C10 (confirmed): once the details-page fetch succeeds,
`getTorrentUrlBySourceId` always returns a present string - with no
download-link element on the page it is the base URL joined with the text
`undefined` - so the play handler's 404 guard for an absent torrent URL can
never fire on this source's result. -/
theorem getTorrentUrlBySourceId_never_absent (ncoreUrl : String)
    (page : DetailsPage) :
    (∃ s, getTorrentUrlBySourceId ncoreUrl page = some s) ∧
    (page.downloadAnchorHref = none →
       getTorrentUrlBySourceId ncoreUrl page =
         some (ncoreUrl ++ "/" ++ "undefined")) ∧
    playTorrentUrlMissing (getTorrentUrlBySourceId ncoreUrl page) = false := by
  have hne : ∀ x : String, ¬ (ncoreUrl ++ "/" ++ x) = "" := by
    intro x heq
    have hlen := congrArg String.length heq
    rw [String.length_append, String.length_append] at hlen
    have h1 : ("/" : String).length = 1 := rfl
    have h0 : ("" : String).length = 0 := rfl
    rw [h1, h0] at hlen
    omega
  refine ⟨⟨_, rfl⟩, fun h => ?_, ?_⟩
  · simp [getTorrentUrlBySourceId, jsTemplateOfHref, h]
  · simp only [getTorrentUrlBySourceId, playTorrentUrlMissing]
    rw [beq_eq_false_iff_ne]
    exact hne _

/-- Witness for C10 on a page with no download-link element. -/
theorem getTorrentUrlBySourceId_never_absent_witness :
    getTorrentUrlBySourceId "https://ncore.pro" ⟨none⟩ =
      some ("https://ncore.pro" ++ "/" ++ "undefined") ∧
    playTorrentUrlMissing (getTorrentUrlBySourceId "https://ncore.pro" ⟨none⟩) =
      false := by
  have h := getTorrentUrlBySourceId_never_absent "https://ncore.pro" ⟨none⟩
  exact ⟨h.2.1 rfl, h.2.2⟩
